import Mathlib

/-!
Verification development for the halfway-db transit-graph pipeline.

The definitions below are a shallow embedding of the Python sources:
`national_graph.py` (TimeNormalizer, classify_service, extract_stop_events,
compute_headways), `graph_times.py` (build_graph, dijkstra, main) and
`update_national_network.py` (merge_line_edges, merge_station_metadata,
filter_ground_nodes, ensure_unique_station_names).

Python floats are modelled as rationals, Python ints as Int or Nat, Python
None as Option.none, dicts as association lists that update in place and
append fresh keys (matching insertion-order semantics).  String helpers
(strip, upper, lower, startswith, lexicographic order) are implemented
structurally over the character list so that they evaluate by kernel
reduction.
-/

/-- Characters of a string after Python str.strip(): leading and trailing
whitespace removed. -/
def stripChars (cs : List Char) : List Char :=
  ((cs.dropWhile Char.isWhitespace).reverse.dropWhile Char.isWhitespace).reverse

/-- Python str.strip() on a string. -/
def pyStrip (s : String) : String :=
  String.mk (stripChars s.data)

/-- Python str.upper() (ASCII case, which is all the feeds use). -/
def pyUpper (s : String) : String :=
  String.mk (s.data.map Char.toUpper)

/-- Python str.casefold() (ASCII case, which is all the feeds use). -/
def caseFold (s : String) : String :=
  String.mk (s.data.map Char.toLower)

/-- Python str.startswith(pre). -/
def pyStartsWith (s : String) (pat : String) : Bool :=
  pat.data.isPrefixOf s.data

/-- Python truthiness of an optional string: None and the empty string are
falsy, every other string is truthy. -/
def truthy : Option String → Bool
  | none => false
  | some s => s ≠ ""

/-- Python `a or b` on optional strings under `truthy`. -/
def pyOr (a b : Option String) : Option String :=
  if truthy a then a else b

/-- Value of a decimal digit string (the argument is known to be all digits). -/
def digitsToNat (cs : List Char) : Nat :=
  cs.foldl (fun a c => a * 10 + (c.toNat - 48)) 0

/-- Strict lexicographic order on character lists by code point, as Python
compares strings. -/
def strLtChars : List Char → List Char → Bool
  | [], [] => false
  | [], _ :: _ => true
  | _ :: _, [] => false
  | a :: as, b :: bs => a.toNat < b.toNat || (a = b && strLtChars as bs)

/-- Non-strict string order used to model Python sorted() on strings. -/
def strLeB (a b : String) : Bool :=
  !(strLtChars b.data a.data)

/-- Association-list update with Python dict semantics: an existing key is
updated in place, a new key is appended. -/
def assocSet {α β : Type} [DecidableEq α] : List (α × β) → α → β → List (α × β)
  | [], k, v => [(k, v)]
  | (k', v') :: rest, k, v =>
      if k' = k then (k, v) :: rest else (k', v') :: assocSet rest k v

/- ## national_graph.py : TimeNormalizer -/

/-- Mutable state of `TimeNormalizer` (`_day_offset`, `_last_value`). -/
structure TimeNormalizer where
  day_offset : Nat
  last_value : Option ℚ
deriving DecidableEq

/-- A fresh `TimeNormalizer()` instance. -/
def TimeNormalizer.init : TimeNormalizer := ⟨0, none⟩

/-- The token-validation phase of `TimeNormalizer.parse`: on `raw` empty or
None return no value, otherwise strip, detect the trailing half-minute
marker H, require at least three digits, and split into
(hours, minutes, half-minute flag) via `token[:-2]` and `token[-2:]`. -/
def parseToken (raw : Option String) : Option (Nat × Nat × Bool) :=
  match raw with
  | none => none
  | some r =>
    if r = "" then none
    else
      let cs := stripChars r.data
      let half : Bool := cs.getLast? == some 'H'
      let token := if half then cs.dropLast else cs
      if token.length < 3 ∨ ¬ (token.all Char.isDigit) then none
      else some (digitsToNat (token.dropLast.dropLast),
                 digitsToNat (token.drop (token.length - 2)), half)

/-- `base_minutes = hh * 60 + mm + (0.5 if half_minute else 0.0)`. -/
def tokenBase (t : Nat × Nat × Bool) : ℚ :=
  (t.1 : ℚ) * 60 + (t.2.1 : ℚ) + (if t.2.2 then (1 : ℚ) / 2 else 0)

/-- The same-day value of a token counted in half minutes (a natural
number, used to reason about the granularity of parsed times). -/
def halfUnits (t : Nat × Nat × Bool) : Nat :=
  120 * t.1 + 2 * t.2.1 + (if t.2.2 then 1 else 0)

/-- A raw token is a valid time of day when, if it parses at all, its
same-day value stays below 24 hours (hh ≤ 23 for an HHMM token). -/
def validTok (raw : Option String) : Bool :=
  match parseToken raw with
  | none => true
  | some t => halfUnits t < 2880

/-- `TimeNormalizer.parse`: parse a raw token, bump the day offset when the
fresh same-day value would fall below the last emitted value (within the
1e-6 epsilon of the source), and remember the largest value seen. -/
def TimeNormalizer.parse (s : TimeNormalizer) (raw : Option String) :
    TimeNormalizer × Option ℚ :=
  match parseToken raw with
  | none => (s, none)
  | some t =>
    let base := tokenBase t
    let day_offset : Nat :=
      match s.last_value with
      | some last =>
          if base + (s.day_offset : ℚ) * 24 * 60 + 1 / 1000000 < last then
            s.day_offset + 1
          else s.day_offset
      | none => s.day_offset
    let minutes := base + (day_offset : ℚ) * 24 * 60
    let last_value :=
      match s.last_value with
      | none => some minutes
      | some last => if last < minutes then some minutes else some last
    (⟨day_offset, last_value⟩, some minutes)

/-- Feed a list of raw tokens to one normalizer instance and collect the
values returned for the tokens that parse. -/
def TimeNormalizer.run (s : TimeNormalizer) : List (Option String) → List ℚ
  | [] => []
  | raw :: rest =>
    match s.parse raw with
    | (s', none) => s'.run rest
    | (s', some v) => v :: s'.run rest

/-- State invariant of the normalizer on valid inputs: the remembered last
value is a whole number of half minutes below one day, shifted by the
current day offset. -/
def TimeNormalizer.Inv (s : TimeNormalizer) : Prop :=
  ∀ l, s.last_value = some l →
    ∃ n : Nat, n < 2880 ∧ l = (n : ℚ) / 2 + (s.day_offset : ℚ) * 1440

/- ## national_graph.py : classification and stop extraction -/

/-- MIN_RATIO_FOR_SLOW = 0.7 -/
def MIN_RATIO_FOR_SLOW : ℚ := 7 / 10

/-- MAX_WAIT_MINUTES = 25 -/
def MAX_WAIT_MINUTES : ℚ := 25

/-- `station_id_from_tiploc`: prefix the upper-cased TIPLOC with 910G. -/
def station_id_from_tiploc (tiploc : String) : String :=
  "910G" ++ pyUpper tiploc

/-- `classify_service`: drop non-passenger categories BR, BS, DD, otherwise
classify by the stop ratio against the 0.7 threshold.  The operator code is
taken (and ignored) exactly as in the source. -/
def classify_service (category_field : Option String) ( stop_ratio : ℚ)
    (toc_code : String) : Option String :=
  let _ := toc_code
  let category := pyUpper (pyStrip (category_field.getD ""))
  if category = "BR" ∨ category = "BS" ∨ category = "DD" then none
  else if stop_ratio ≥ MIN_RATIO_FOR_SLOW then some "slow"
  else some "express"

/-- One entry of a schedule's `schedule_location` list (the fields the core
reads; absent keys are `none`). -/
structure ScheduleLocation where
  tiploc_code : Option String
  public_arrival : Option String
  public_departure : Option String
  arrival : Option String
  departure : Option String
deriving DecidableEq

/-- `StopEvent` from the source. -/
structure StopEvent where
  station_id : String
  tiploc : String
  arrival : Option ℚ
  departure : Option ℚ
deriving DecidableEq

/-- The normalized TIPLOC of a location: `(loc.get("tiploc_code") or "").strip().upper()`. -/
def locTiploc (loc : ScheduleLocation) : String :=
  pyUpper (pyStrip (loc.tiploc_code.getD ""))

/-- A location that counts as a timing point: non-blank TIPLOC present in
the station catalogue (modelled by its key list). -/
def isCataloguedPoint (metadata : List String) (loc : ScheduleLocation) : Bool :=
  locTiploc loc ≠ "" && metadata.contains (locTiploc loc)

/-- `bool(loc.get("public_arrival") or loc.get("public_departure"))`. -/
def hasPublicTime (loc : ScheduleLocation) : Bool :=
  truthy loc.public_arrival || truthy loc.public_departure

/-- Loop body of `extract_stop_events`: walk the locations, counting timing
points and public stops and collecting `StopEvent`s through one shared
`TimeNormalizer`.  Returns (stops, total_points, public_stops). -/
def extractGo (metadata : List String) (norm : TimeNormalizer)
    (total public : Nat) (acc : List StopEvent) :
    List ScheduleLocation → List StopEvent × Nat × Nat
  | [] => (acc.reverse, total, public)
  | loc :: rest =>
    if ¬ isCataloguedPoint metadata loc then
      extractGo metadata norm total public acc rest
    else if ¬ hasPublicTime loc then
      extractGo metadata norm (total + 1) public acc rest
    else
      let arrival := pyOr loc.arrival loc.public_arrival
      let departure := pyOr loc.departure loc.public_departure
      let r1 := norm.parse arrival
      let r2 := r1.1.parse departure
      if r1.2 = none ∧ r2.2 = none then
        extractGo metadata r2.1 (total + 1) (public + 1) acc rest
      else
        extractGo metadata r2.1 (total + 1) (public + 1)
          (⟨station_id_from_tiploc (locTiploc loc), locTiploc loc, r1.2, r2.2⟩ :: acc)
          rest

/-- `extract_stop_events`: stop list plus the ratio of public stops over
timing points (0.0 for an empty location list or when no timing point is
counted). -/
def extract_stop_events (locations : List ScheduleLocation)
    (metadata : List String) : List StopEvent × ℚ :=
  if locations = [] then ([], 0)
  else
    let r := extractGo metadata TimeNormalizer.init 0 0 [] locations
    (r.1, if r.2.1 ≠ 0 then (r.2.2 : ℚ) / (r.2.1 : ℚ) else 0)

/-- The stop ratio as the spec sentence reads literally: public stops over
all timing points of the schedule's stop sequence, 0 for an empty
sequence. -/
def ratioSpecWords (locations : List ScheduleLocation) : ℚ :=
  if locations = [] then 0
  else ((locations.filter hasPublicTime).length : ℚ) / (locations.length : ℚ)

/- ## national_graph.py : compute_headways -/

/-- Python min() over a non-empty list (the empty case never arises at the
call sites below). -/
def listMin : List ℚ → ℚ
  | [] => 0
  | d :: rest => rest.foldl min d

/-- Headway of one station-line from its recorded departure times,
following `compute_headways` exactly: fall back to 30 minutes below two
departures, otherwise take the minimum of the strictly positive consecutive
gaps of the sorted times, together with the wrap-around gap to the first
departure one day later when that is positive, falling back to 30 when no
gap qualifies. -/
def headwayForTimes (times : List ℚ) : ℚ :=
  if times.length < 2 then 30
  else
    let sorted_times := times.insertionSort (· ≤ ·)
    let diffs := (sorted_times.zip sorted_times.tail).filterMap
      (fun p => if p.1 < p.2 then some (p.2 - p.1) else none)
    let wrap := sorted_times.headD 0 + 24 * 60 - sorted_times.getLastD 0
    let diffs := if 0 < wrap then diffs ++ [wrap] else diffs
    match diffs with
    | [] => 30
    | d :: rest => rest.foldl min d

/-- `compute_headways`: per-key headway map. -/
def compute_headways (departures : List ((String × String) × List ℚ)) :
    List ((String × String) × ℚ) :=
  departures.map (fun p => (p.1, headwayForTimes p.2))

/-- The headway formula as the claim states it: the minimum over the
consecutive gaps of the sorted departures together with the wrap-around
gap, with no positivity filtering. -/
def claimedHeadway (times : List ℚ) : ℚ :=
  if times.length < 2 then 30
  else
    let sorted_times := times.insertionSort (· ≤ ·)
    listMin (((sorted_times.zip sorted_times.tail).map (fun p => p.2 - p.1)) ++
      [sorted_times.headD 0 + 24 * 60 - sorted_times.getLastD 0])

/-- The corrected headway formula: minimum of the strictly positive values
among the consecutive gaps and the wrap-around gap, 30 when none is
positive (or below two departures). -/
def specHeadway (times : List ℚ) : ℚ :=
  if times.length < 2 then 30
  else
    let sorted_times := times.insertionSort (· ≤ ·)
    let gaps := ((sorted_times.zip sorted_times.tail).map (fun p => p.2 - p.1)) ++
      [sorted_times.headD 0 + 24 * 60 - sorted_times.getLastD 0]
    match gaps.filter (fun g => decide (0 < g)) with
    | [] => 30
    | d :: rest => rest.foldl min d

/-- Wait modelled from a headway for the HUB-to-platform edge:
`min(headway / 2.0, MAX_WAIT_MINUTES)`. -/
def waitMinutes (headway : ℚ) : ℚ :=
  min (headway / 2) MAX_WAIT_MINUTES

/- ## graph_times.py -/

/-- Graph nodes are (station_id, line_token) pairs. -/
abbrev Node := String × String

/-- Adjacency of the graph: per node, the neighbour list with edge times
(the dict-of-dicts of build_graph as an insertion-ordered association
list). -/
abbrev Graph := List (Node × List (Node × Int))

/-- One record of lines.jsonl, and also one edge produced by
build_national_graph. -/
structure LineEdge where
  from_id : String
  from_line : String
  to_id : String
  to_line : String
  time : Int
deriving DecidableEq

/-- Neighbour map of a node; a node never written defaults to no
neighbours, as with the defaultdict of the source. -/
def neighbors (g : Graph) (u : Node) : List (Node × Int) :=
  (g.lookup u).getD []

/-- `build_graph`: fold the edge records into the nested dict, a later
record for the same ordered node pair overwriting the earlier time. -/
def build_graph (edges : List LineEdge) : Graph :=
  edges.foldl
    (fun g e =>
      let key1 : Node := (e.from_id, e.from_line)
      let key2 : Node := (e.to_id, e.to_line)
      assocSet g key1 (assocSet (neighbors g key1) key2 e.time))
    []

/-- Order on heap entries (distance, node): Python tuple comparison, i.e.
by distance first and then by the node's string pair. -/
def pqKeyLt (a b : Int × Node) : Bool :=
  a.1 < b.1 ||
    (a.1 = b.1 && (strLtChars a.2.1.data b.2.1.data ||
      (a.2.1 = b.2.1 && strLtChars a.2.2.data b.2.2.data)))

/-- Select the minimal entry of the priority queue and return it with the
remaining entries (heappop on the heap holding these entries). -/
def popMinGo (best : Int × Node) (seen : List (Int × Node)) :
    List (Int × Node) → (Int × Node) × List (Int × Node)
  | [] => (best, seen.reverse)
  | x :: rest =>
    if pqKeyLt x best then popMinGo x (best :: seen) rest
    else popMinGo best (x :: seen) rest

/-- Pop the minimal entry of a non-empty priority queue. -/
def popMin : List (Int × Node) → Option ((Int × Node) × List (Int × Node))
  | [] => none
  | x :: xs => some (popMinGo x [] xs)

/-- Relax all outgoing edges of the popped node: for each neighbour whose
tentative distance improves, record the new distance and push the entry. -/
def relaxNeighbors (cd : Int) (nbrs : List (Node × Int))
    (pq : List (Int × Node)) (dist : Node → Option Int) :
    List (Int × Node) × (Node → Option Int) :=
  nbrs.foldl
    (fun acc p =>
      let nd := cd + p.2
      match acc.2 p.1 with
      | some dv =>
        if nd < dv then ((nd, p.1) :: acc.1, fun x => if x = p.1 then some nd else acc.2 x)
        else acc
      | none => ((nd, p.1) :: acc.1, fun x => if x = p.1 then some nd else acc.2 x))
    (pq, dist)

/-- Main loop of `dijkstra`, with fuel bounding the number of iterations
(the Python loop runs until the queue empties; every concrete run below
finishes well within its fuel).  A popped entry whose recorded distance has
since improved is skipped. -/
def dijkstraLoop (g : Graph) : Nat → List (Int × Node) → (Node → Option Int) →
    (Node → Option Int)
  | 0, _, dist => dist
  | fuel + 1, pq, dist =>
    match popMin pq with
    | none => dist
    | some ((cd, u), rest) =>
      let skip : Bool :=
        match dist u with
        | some du => du < cd
        | none => false
      if skip then dijkstraLoop g fuel rest dist
      else
        let r := relaxNeighbors cd (neighbors g u) rest dist
        dijkstraLoop g fuel r.1 r.2

/-- Fuel used for a graph: generous bound on pushes for the runs below. -/
def dijkstraFuel (g : Graph) : Nat :=
  (g.length + (g.map (fun p => p.2.length)).sum + 2) ^ 2

/-- `dijkstra(graph, start)`: distances from the start node; a node with no
entry has infinite distance (None here). -/
def dijkstra (g : Graph) (start : Node) : Node → Option Int :=
  dijkstraLoop g (dijkstraFuel g) [(0, start)]
    (fun x => if x = start then some 0 else none)

/-- `is_ground_node`. -/
def is_ground_node (node : Node) : Bool :=
  node.2 = "GROUND"

/-- All nodes of the graph: every key plus every neighbour. -/
def collectNodes (g : Graph) : List Node :=
  (g.foldl (fun acc p => (acc ++ [p.1]) ++ p.2.map Prod.fst) []).dedup

/-- One record of shortest_paths.jsonl. -/
structure PathRecord where
  from_station : String
  to_station : String
  time : Int
deriving DecidableEq

/-- The emission loop of graph_times.main: run dijkstra from every ground
node and emit a record for every distinct reachable ground destination. -/
def graph_times_main (edges : List LineEdge) : List PathRecord :=
  let graph := build_graph edges
  let nodes := collectNodes graph
  nodes.flatMap (fun start =>
    if is_ground_node start then
      let distances := dijkstra graph start
      nodes.filterMap (fun e =>
        match distances e with
        | some d => if start ≠ e ∧ is_ground_node e then
            some ⟨start.1, e.1, d⟩ else none
        | none => none)
    else [])

/- ## update_national_network.py : merge_line_edges -/

/-- The composite key of an edge record. -/
abbrev EdgeKey := String × String × String × String

/-- Key of an edge record as built in merge_line_edges. -/
def edgeKey (e : LineEdge) : EdgeKey :=
  (e.from_id, e.from_line, e.to_id, e.to_line)

/-- The lines.jsonl store: the record list plus the key index positions, as
load_line_records builds them. -/
structure LinesState where
  records : List LineEdge
  index : List (EdgeKey × Nat)

/-- Merge a single new edge: an existing key keeps the smaller time, a new
key appends a record and indexes it.  Returns the state with the
(updates, inserts) contribution of this edge. -/
def mergeOneEdge (st : LinesState) (edge : LineEdge) : LinesState × Nat × Nat :=
  let key := edgeKey edge
  match st.index.lookup key with
  | some idx =>
    match st.records[idx]? with
    | some r =>
      if edge.time < r.time then
        ({ st with records := st.records.set idx { r with time := edge.time } }, 1, 0)
      else (st, 0, 0)
    | none => (st, 0, 0)
  | none =>
    ({ records := st.records ++ [edge], index := (key, st.records.length) :: st.index },
     0, 1)

/-- `merge_line_edges`: fold the new edges into the store, counting updates
and inserts. -/
def merge_line_edges (st : LinesState) (new_edges : List LineEdge) :
    LinesState × Nat × Nat :=
  new_edges.foldl
    (fun acc e =>
      let r := mergeOneEdge acc.1 e
      (r.1, acc.2.1 + r.2.1, acc.2.2 + r.2.2))
    (st, 0, 0)

/-- The stored weight at a key: follow the index into the record list. -/
def storedTime (st : LinesState) (k : EdgeKey) : Option Int :=
  (st.index.lookup k).bind (fun i => (st.records[i]?).map LineEdge.time)

/-- Well-formedness of the store, as load_line_records guarantees it: every
index entry points at a record carrying that key. -/
def LinesWF (st : LinesState) : Prop :=
  ∀ k i, st.index.lookup k = some i →
    ∃ r, st.records[i]? = some r ∧ edgeKey r = k

/-- Combine optional weights by minimum (absent = not yet stored). -/
def ominOpt : Option Int → Option Int → Option Int
  | none, b => b
  | some a, none => some a
  | some a, some b => some (min a b)

/-- Minimum time among the new edges carrying a given key. -/
def minNewTime (k : EdgeKey) : List LineEdge → Option Int
  | [] => none
  | e :: es =>
    if edgeKey e = k then ominOpt (some e.time) (minNewTime k es)
    else minNewTime k es

/- ## update_national_network.py : station merge -/

/-- `StationMetadata` from national_loader.py. -/
structure StationMetadata where
  tiploc : String
  name : Option String
  three_alpha : Option String
  atco_code : Option String
  naptan_code : Option String
  latitude : Option ℚ
  longitude : Option ℚ
  locality_name : Option String
deriving DecidableEq

/-- One stations.jsonl record (the fields the merge touches; an absent
dict key is `none`). -/
structure StationRecord where
  station_id : String
  station_name : Option String := none
  code : Option String := none
  latitude : Option ℚ := none
  longitude : Option ℚ := none
  tiploc : Option String := none
  atco_code : Option String := none
  naptan_code : Option String := none
  locality : Option String := none
deriving DecidableEq

/-- The per-record body of `merge_station_metadata`: update (or create) the
record for one station id from one StationMetadata.  Name and code fall
back through or-chains; latitude, longitude and tiploc are assigned
unconditionally; atco_code, naptan_code and locality are assigned only when
the metadata value is truthy. -/
def mergeStationOne (existing : Option StationRecord) (station_id : String)
    (meta : StationMetadata) : StationRecord :=
  let record := existing.getD { station_id := station_id }
  { record with
    station_name := pyOr meta.name (pyOr record.station_name (some station_id)),
    code := pyOr meta.three_alpha (pyOr record.code (some meta.tiploc)),
    latitude := meta.latitude,
    longitude := meta.longitude,
    tiploc := some meta.tiploc,
    atco_code := if truthy meta.atco_code then meta.atco_code else record.atco_code,
    naptan_code := if truthy meta.naptan_code then meta.naptan_code else record.naptan_code,
    locality := if truthy meta.locality_name then meta.locality_name else record.locality }

/-- `merge_station_metadata` over the whole station dict.  The trailing
setdefault pass of the source only materialises absent keys as None, which
the Option-field model already represents, so it is the identity here. -/
def merge_station_metadata (existing : List (String × StationRecord))
    (national_stations : List (String × StationMetadata)) :
    List (String × StationRecord) :=
  national_stations.foldl
    (fun recs p => assocSet recs p.1 (mergeStationOne (recs.lookup p.1) p.1 p.2))
    existing

/-- `filter_ground_nodes`: drop every record whose station id starts with
HUB. -/
def filter_ground_nodes (records : List (String × StationRecord)) :
    List (String × StationRecord) :=
  records.filter (fun p => ¬ pyStartsWith p.1 "HUB")

/-- The while loop of ensure_unique_station_names that resolves residual
suffix collisions with an incrementing counter; the fuel of one more than
the seen set always suffices to find a fresh candidate. -/
def uniqueCandidateGo (new_name : String) (seen : List String) :
    Nat → Nat → String → String
  | 0, _, cand => cand
  | fuel + 1, counter, cand =>
    if seen.contains (caseFold cand) then
      uniqueCandidateGo new_name seen fuel (counter + 1)
        (new_name ++ " #" ++ toString counter)
    else cand

/-- First candidate name not colliding with the seen set. -/
def uniqueCandidate (new_name : String) (seen : List String) : String :=
  uniqueCandidateGo new_name seen (seen.length + 1) 1 new_name

/-- Append a station id to its casefolded-name group (dict-of-lists
setdefault-append). -/
def addGroup : List (String × List String) → String → String → List (String × List String)
  | [], key, sid => [(key, [sid])]
  | (k, sids) :: rest, key, sid =>
    if k = key then (k, sids ++ [sid]) :: rest
    else (k, sids) :: addGroup rest key sid

/-- name_groups of ensure_unique_station_names: station ids grouped by the
casefolded display name, in encounter order. -/
def buildGroups (records : List (String × StationRecord)) :
    List (String × List String) :=
  records.foldl
    (fun gs p => addGroup gs (caseFold ((pyOr p.2.station_name (some p.1)).getD p.1)) p.1)
    []

/-- Process one colliding group in sorted station-id order: the first id
keeps its name, later ids gain a bracketed suffix from code or tiploc or
the id, and residual collisions gain a counter.  Returns the id-to-name
assignments. -/
def groupRenamesGo (records : List (String × StationRecord)) :
    List String → Nat → List String → List (String × String)
  | [], _, _ => []
  | sid :: rest, idx, seen =>
    let r := (records.lookup sid).getD { station_id := sid }
    let base := (pyOr r.station_name (some sid)).getD sid
    let new_name :=
      if idx = 0 then base
      else base ++ " [" ++ ((pyOr r.code (pyOr r.tiploc (some sid))).getD sid) ++ "]"
    let candidate := uniqueCandidate new_name seen
    (sid, candidate) :: groupRenamesGo records rest (idx + 1) (seen ++ [caseFold candidate])

/-- Renames for one group, its station ids visited in sorted order. -/
def groupRenames (records : List (String × StationRecord)) (sids : List String) :
    List (String × String) :=
  groupRenamesGo records (sids.insertionSort (fun a b => strLeB a b = true)) 0 []

/-- `ensure_unique_station_names`: first normalise every display name to a
truthy value, then rename the members of every colliding group.  Only the
station_name fields change; the key set is untouched. -/
def ensure_unique_station_names (records : List (String × StationRecord)) :
    List (String × StationRecord) :=
  let records1 := records.map
    (fun p => (p.1, { p.2 with station_name := pyOr p.2.station_name (some p.1) }))
  let groups := buildGroups records1
  let renames := groups.foldl
    (fun acc g => if g.2.length ≤ 1 then acc else acc ++ groupRenames records1 g.2) []
  records1.map (fun p =>
    match renames.lookup p.1 with
    | some nm => (p.1, { p.2 with station_name := some nm })
    | none => p)

/- ## Concrete fixtures used by the theorems below -/

/-- Ground node of station A in the four-station test graph. -/
def GROUND_A : Node := ("A", "GROUND")

/-- Ground node of station B in the four-station test graph. -/
def GROUND_B : Node := ("B", "GROUND")

/-- The test graph GROUND_A→HUB_A(2), HUB_A→LINE1_A(3), LINE1_A→LINE1_B(10),
LINE1_B→HUB_B(2), HUB_B→GROUND_B(2), written as lines.jsonl edge records
over the two stations A and B. -/
def spec_graph_edges : List LineEdge :=
  [⟨"A", "GROUND", "A", "HUB", 2⟩,
   ⟨"A", "HUB", "A", "LINE1", 3⟩,
   ⟨"A", "LINE1", "B", "LINE1", 10⟩,
   ⟨"B", "LINE1", "B", "HUB", 2⟩,
   ⟨"B", "HUB", "B", "GROUND", 2⟩]

/-- An edge with weight 10. -/
def edge10 : LineEdge := ⟨"X", "l1", "Y", "l1", 10⟩

/-- The same key as edge10 with weight 7. -/
def edge7 : LineEdge := ⟨"X", "l1", "Y", "l1", 7⟩

/-- The same key as edge10 with weight 12. -/
def edge12 : LineEdge := ⟨"X", "l1", "Y", "l1", 12⟩

/-- A store holding just edge10, indexed as load_line_records builds it. -/
def st10 : LinesState := ⟨[edge10], [(edgeKey edge10, 0)]⟩

/-- A fully populated station record. -/
def recFull : StationRecord :=
  { station_id := "910GAAA", station_name := some "Alpha", code := some "AAA",
    latitude := some 51, longitude := some 0, tiploc := some "AAA",
    atco_code := some "9100AAA", naptan_code := some "npt",
    locality := some "Town" }

/-- A station record whose coordinates are populated. -/
def recWithCoords : StationRecord :=
  { station_id := "910GAAA", station_name := some "Alpha",
    code := some "AAA", latitude := some 51, longitude := some 0 }

/-- National metadata for the same station carrying no coordinates. -/
def metaNoCoords : StationMetadata :=
  { tiploc := "AAA", name := none, three_alpha := none, atco_code := none,
    naptan_code := none, latitude := none, longitude := none,
    locality_name := none }

/-- A location with an unknown TIPLOC but a public arrival time. -/
def locUnknownPublic : ScheduleLocation :=
  { tiploc_code := some "ZZZZ", public_arrival := some "1200",
    public_departure := none, arrival := none, departure := none }

/-- A catalogued location with no public time. -/
def locKnownNoPublic : ScheduleLocation :=
  { tiploc_code := some "AAAA", public_arrival := none,
    public_departure := none, arrival := none, departure := none }

/-- A previously persisted catalogue holding a hub node and a station. -/
def exampleExisting : List (String × StationRecord) :=
  [("HUBXYZ", { station_id := "HUBXYZ", station_name := some "Hub Xyz" }),
   ("910GAAA", { station_id := "910GAAA", station_name := some "Alpha" })]

/-- Newly produced national stations for the catalogue example. -/
def exampleNational : List (String × StationMetadata) :=
  [("910GBBB",
    { tiploc := "BBB", name := some "Beta", three_alpha := some "BBB",
      atco_code := none, naptan_code := none, latitude := none,
      longitude := none, locality_name := none })]

set_option maxRecDepth 20000

/- ## Theorems -/

/-- C4: on the four-station test graph, the single-source shortest-path
distance computed by dijkstra from GROUND_A to GROUND_B is exactly 19. -/
theorem dijkstra_spec_graph_nineteen :
    dijkstra (build_graph spec_graph_edges) GROUND_A GROUND_B = some 19 := by
  decide

/-- C6: classify_service on category code BR rejects for every stop ratio,
and for a category that is not rejected a stop ratio of exactly 0.70
classifies as slow while 0.69 classifies as express. -/
theorem classify_service_category_and_threshold :
    (∀ (r : ℚ) (toc : String), classify_service (some "BR") r toc = none) ∧
    (∀ (cat : Option String) (toc : String),
      pyUpper (pyStrip (cat.getD "")) ∉ (["BR", "BS", "DD"] : List String) →
      classify_service cat (70 / 100) toc = some "slow" ∧
      classify_service cat (69 / 100) toc = some "express") := by
  constructor
  · intro r toc
    have h : pyUpper (pyStrip "BR") = "BR" := by decide
    simp [classify_service, h]
  · intro cat toc h
    simp only [List.mem_cons, List.not_mem_nil, or_false] at h
    push_neg at h
    obtain ⟨h1, h2, h3⟩ := h
    have hcond : ¬ (pyUpper (pyStrip (cat.getD "")) = "BR" ∨
        pyUpper (pyStrip (cat.getD "")) = "BS" ∨
        pyUpper (pyStrip (cat.getD "")) = "DD") := by
      intro hc
      rcases hc with hc | hc | hc
      · exact h1 hc
      · exact h2 hc
      · exact h3 hc
    have hslow : ((70 : ℚ) / 100) ≥ MIN_RATIO_FOR_SLOW := by
      norm_num [MIN_RATIO_FOR_SLOW]
    have hexp : ¬ (((69 : ℚ) / 100) ≥ MIN_RATIO_FOR_SLOW) := by
      norm_num [MIN_RATIO_FOR_SLOW]
    constructor
    · simp only [classify_service, if_neg hcond, if_pos hslow]
    · simp only [classify_service, if_neg hcond, if_neg hexp]

/-- Witness for C6 at concrete inputs: BR with ratio one half rejects, and
category OO classifies slow at 0.70 and express at 0.69. -/
theorem classify_service_category_and_threshold_witness :
    classify_service (some "BR") (1 / 2) "vt" = none ∧
    classify_service (some "OO") (70 / 100) "vt" = some "slow" ∧
    classify_service (some "OO") (69 / 100) "vt" = some "express" :=
  ⟨classify_service_category_and_threshold.1 (1 / 2) "vt",
   (classify_service_category_and_threshold.2 (some "OO") "vt" (by decide)).1,
   (classify_service_category_and_threshold.2 (some "OO") "vt" (by decide)).2⟩

/-- The base minutes of a token are its half-minute count over two. -/
theorem tokenBase_eq_halfUnits (t : Nat × Nat × Bool) :
    tokenBase t = (halfUnits t : ℚ) / 2 := by
  rcases t with ⟨hh, mm, b⟩
  cases b <;> simp [tokenBase, halfUnits] <;> push_cast <;> ring

/-- parse on a token that does not validate returns no value and keeps the
state. -/
theorem TimeNormalizer.parse_none_token (s : TimeNormalizer) (raw : Option String)
    (h : parseToken raw = none) : s.parse raw = (s, none) := by
  simp only [TimeNormalizer.parse, h]

/-- parse on the first parsed token of an instance. -/
theorem TimeNormalizer.parse_first (s : TimeNormalizer) (raw : Option String)
    (t : Nat × Nat × Bool) (hpt : parseToken raw = some t)
    (hlast : s.last_value = none) :
    s.parse raw =
      (⟨s.day_offset, some (tokenBase t + (s.day_offset : ℚ) * 24 * 60)⟩,
       some (tokenBase t + (s.day_offset : ℚ) * 24 * 60)) := by
  simp only [TimeNormalizer.parse, hpt, hlast]

/-- parse when the fresh value falls below the last one: the day offset
bumps (the recomputed value is assumed, and later proved, to exceed the
last one, so the last value advances). -/
theorem TimeNormalizer.parse_bump (s : TimeNormalizer) (raw : Option String)
    (t : Nat × Nat × Bool) (last : ℚ) (hpt : parseToken raw = some t)
    (hlast : s.last_value = some last)
    (hbump : tokenBase t + (s.day_offset : ℚ) * 24 * 60 + 1 / 1000000 < last)
    (hlt : last < tokenBase t + ((s.day_offset + 1 : Nat) : ℚ) * 24 * 60) :
    s.parse raw =
      (⟨s.day_offset + 1, some (tokenBase t + ((s.day_offset + 1 : Nat) : ℚ) * 24 * 60)⟩,
       some (tokenBase t + ((s.day_offset + 1 : Nat) : ℚ) * 24 * 60)) := by
  simp only [TimeNormalizer.parse, hpt, hlast, if_pos hbump, if_pos hlt]

/-- parse on a same-day token that advances past the last value. -/
theorem TimeNormalizer.parse_grow (s : TimeNormalizer) (raw : Option String)
    (t : Nat × Nat × Bool) (last : ℚ) (hpt : parseToken raw = some t)
    (hlast : s.last_value = some last)
    (hbump : ¬ (tokenBase t + (s.day_offset : ℚ) * 24 * 60 + 1 / 1000000 < last))
    (hgrow : last < tokenBase t + (s.day_offset : ℚ) * 24 * 60) :
    s.parse raw =
      (⟨s.day_offset, some (tokenBase t + (s.day_offset : ℚ) * 24 * 60)⟩,
       some (tokenBase t + (s.day_offset : ℚ) * 24 * 60)) := by
  simp only [TimeNormalizer.parse, hpt, hlast, if_neg hbump, if_pos hgrow]

/-- parse on a same-day token that does not advance past the last value. -/
theorem TimeNormalizer.parse_stay (s : TimeNormalizer) (raw : Option String)
    (t : Nat × Nat × Bool) (last : ℚ) (hpt : parseToken raw = some t)
    (hlast : s.last_value = some last)
    (hbump : ¬ (tokenBase t + (s.day_offset : ℚ) * 24 * 60 + 1 / 1000000 < last))
    (hgrow : ¬ (last < tokenBase t + (s.day_offset : ℚ) * 24 * 60)) :
    s.parse raw =
      (⟨s.day_offset, some last⟩, some (tokenBase t + (s.day_offset : ℚ) * 24 * 60)) := by
  simp only [TimeNormalizer.parse, hpt, hlast, if_neg hbump, if_neg hgrow]

/-- One parse step: on a valid token the normalizer state invariant is
preserved, a token that yields no value leaves the state unchanged, and an
emitted value is at least the previous last value and at most the new last
value. -/
theorem TimeNormalizer.parse_step (s : TimeNormalizer) (raw : Option String)
    (hInv : s.Inv) (hval : validTok raw = true) :
    ((s.parse raw).2 = none → (s.parse raw).1 = s) ∧
    (s.parse raw).1.Inv ∧
    ∀ v, (s.parse raw).2 = some v →
      (∀ l, s.last_value = some l → l ≤ v) ∧
      ∃ l', (s.parse raw).1.last_value = some l' ∧ v ≤ l' := by
  cases hpt : parseToken raw with
  | none =>
    rw [TimeNormalizer.parse_none_token s raw hpt]
    exact ⟨fun _ => rfl, hInv, fun v hv => by cases hv⟩
  | some t =>
    have hbase := tokenBase_eq_halfUnits t
    have hn : halfUnits t < 2880 := by
      have hv2 := hval
      simp only [validTok, hpt, decide_eq_true_eq] at hv2
      exact hv2
    have hnq : ((halfUnits t : ℚ)) < 2880 := by exact_mod_cast hn
    cases hlast : s.last_value with
    | none =>
      rw [TimeNormalizer.parse_first s raw t hpt hlast]
      refine ⟨(fun h => by cases h), ?_, ?_⟩
      · intro l hl
        replace hl := Option.some.inj hl
        refine ⟨halfUnits t, hn, ?_⟩
        rw [← hl, hbase]
        push_cast
        ring
      · intro v hv
        replace hv := Option.some.inj hv
        refine ⟨(fun l hl => by cases hl), ?_⟩
        exact ⟨tokenBase t + (s.day_offset : ℚ) * 24 * 60, rfl, by rw [← hv]⟩
    | some last =>
      obtain ⟨k, hk, hkeq⟩ := hInv last hlast
      have hkq : ((k : ℚ)) < 2880 := by exact_mod_cast hk
      by_cases hbump : tokenBase t + (s.day_offset : ℚ) * 24 * 60 + 1 / 1000000 < last
      · have hlt : last < tokenBase t + ((s.day_offset + 1 : Nat) : ℚ) * 24 * 60 := by
          rw [hkeq, hbase]
          push_cast
          linarith
        rw [TimeNormalizer.parse_bump s raw t last hpt hlast hbump hlt]
        refine ⟨(fun h => by cases h), ?_, ?_⟩
        · intro l hl
          replace hl := Option.some.inj hl
          refine ⟨halfUnits t, hn, ?_⟩
          rw [← hl, hbase]
          push_cast
          ring
        · intro v hv
          replace hv := Option.some.inj hv
          refine ⟨?_, ?_⟩
          · intro l hl
            replace hl := Option.some.inj hl
            rw [← hv, ← hl]
            exact le_of_lt hlt
          · exact ⟨tokenBase t + ((s.day_offset + 1 : Nat) : ℚ) * 24 * 60, rfl, by rw [← hv]⟩
      · have hle : last ≤ tokenBase t + (s.day_offset : ℚ) * 24 * 60 := by
          by_contra hlt2
          push_neg at hlt2
          have h1 : ((halfUnits t : ℚ)) < (k : ℚ) := by
            rw [hkeq, hbase] at hlt2
            linarith
          have h2 : halfUnits t < k := by exact_mod_cast h1
          have h3 : ((halfUnits t : ℚ)) + 1 ≤ (k : ℚ) := by exact_mod_cast h2
          apply hbump
          rw [hkeq, hbase]
          linarith
        by_cases hgrow : last < tokenBase t + (s.day_offset : ℚ) * 24 * 60
        · rw [TimeNormalizer.parse_grow s raw t last hpt hlast hbump hgrow]
          refine ⟨(fun h => by cases h), ?_, ?_⟩
          · intro l hl
            replace hl := Option.some.inj hl
            refine ⟨halfUnits t, hn, ?_⟩
            rw [← hl, hbase]
            push_cast
            ring
          · intro v hv
            replace hv := Option.some.inj hv
            refine ⟨?_, ?_⟩
            · intro l hl
              replace hl := Option.some.inj hl
              rw [← hv, ← hl]
              exact hle
            · exact ⟨tokenBase t + (s.day_offset : ℚ) * 24 * 60, rfl, by rw [← hv]⟩
        · rw [TimeNormalizer.parse_stay s raw t last hpt hlast hbump hgrow]
          push_neg at hgrow
          refine ⟨(fun h => by cases h), ?_, ?_⟩
          · intro l hl
            replace hl := Option.some.inj hl
            exact ⟨k, hk, by rw [← hl, hkeq]⟩
          · intro v hv
            replace hv := Option.some.inj hv
            refine ⟨?_, ?_⟩
            · intro l hl
              replace hl := Option.some.inj hl
              rw [← hv, ← hl]
              exact hle
            · exact ⟨last, rfl, by rw [← hv]; exact hgrow⟩

/-- Running one normalizer over valid tokens yields a non-decreasing value
sequence, whose first value is bounded below by the remembered last
value. -/
theorem TimeNormalizer.run_chain (toks : List (Option String)) :
    ∀ s : TimeNormalizer, s.Inv → (∀ raw ∈ toks, validTok raw = true) →
      List.Chain' (· ≤ ·) (s.run toks) ∧
      ∀ l, s.last_value = some l → ∀ v, (s.run toks).head? = some v → l ≤ v := by
  induction toks with
  | nil =>
    intro s _ _
    exact ⟨List.chain'_nil, fun l _ v hv => by simp [TimeNormalizer.run] at hv⟩
  | cons raw rest ih =>
    intro s hInv hval
    have hstep := TimeNormalizer.parse_step s raw hInv (hval raw (by simp))
    have hvrest : ∀ r ∈ rest, validTok r = true := fun r hr => hval r (by simp [hr])
    rcases hp : s.parse raw with ⟨s', out⟩
    rw [hp] at hstep
    cases out with
    | none =>
      have hs : s' = s := hstep.1 rfl
      have hrun : s.run (raw :: rest) = s'.run rest := by
        simp only [TimeNormalizer.run, hp]
      rw [hrun, hs]
      exact ih s hInv hvrest
    | some v =>
      have hrun : s.run (raw :: rest) = v :: s'.run rest := by
        simp only [TimeNormalizer.run, hp]
      obtain ⟨hprev, l', hl', hvl⟩ := hstep.2.2 v rfl
      have ihr := ih s' hstep.2.1 hvrest
      rw [hrun]
      constructor
      · rw [List.chain'_cons']
        refine ⟨?_, ihr.1⟩
        intro y hy
        refine le_trans hvl (ihr.2 l' hl' y ?_)
        simpa using hy
      · intro l hl v0 hv0
        simp only [List.head?_cons, Option.some.injEq] at hv0
        rw [← hv0]
        exact hprev l hl

/-- Evaluation of the first parse of the token 2350. -/
theorem parse_2350 :
    TimeNormalizer.init.parse (some "2350") = (⟨0, some 1430⟩, some 1430) := by
  have hpt : parseToken (some "2350") = some (23, 50, false) := by decide
  rw [TimeNormalizer.parse_first TimeNormalizer.init (some "2350") (23, 50, false) hpt rfl]
  norm_num [tokenBase, TimeNormalizer.init]

/-- Evaluation of the rollover parse of the token 0010 after 2350. -/
theorem parse_0010_after_2350 :
    (⟨0, some 1430⟩ : TimeNormalizer).parse (some "0010") = (⟨1, some 1450⟩, some 1450) := by
  have hpt : parseToken (some "0010") = some (0, 10, false) := by decide
  rw [TimeNormalizer.parse_bump ⟨0, some 1430⟩ (some "0010") (0, 10, false) 1430 hpt rfl
    (by norm_num [tokenBase]) (by norm_num [tokenBase])]
  norm_num [tokenBase]

/-- Evaluation of the first parse of the out-of-range token 9999. -/
theorem parse_9999 :
    TimeNormalizer.init.parse (some "9999") = (⟨0, some 6039⟩, some 6039) := by
  have hpt : parseToken (some "9999") = some (99, 99, false) := by decide
  rw [TimeNormalizer.parse_first TimeNormalizer.init (some "9999") (99, 99, false) hpt rfl]
  norm_num [tokenBase, TimeNormalizer.init]

/-- Evaluation of the parse of 0010 after 9999: the day offset bumps once
but the value stays below the remembered last value. -/
theorem parse_0010_after_9999 :
    (⟨0, some 6039⟩ : TimeNormalizer).parse (some "0010") = (⟨1, some 6039⟩, some 1450) := by
  have hpt : parseToken (some "0010") = some (0, 10, false) := by decide
  have hbump : tokenBase (0, 10, false) + ((⟨0, some 6039⟩ : TimeNormalizer).day_offset : ℚ) * 24 * 60 +
      1 / 1000000 < 6039 := by norm_num [tokenBase]
  simp only [TimeNormalizer.parse, hpt, if_pos hbump]
  norm_num [tokenBase]

/-- C2 (amended): across one TimeNormalizer instance, for every token
sequence whose parsed tokens each stay below 24 hours of same-day value,
the returned values are non-decreasing; feeding 2350 then 0010 returns
1430 and then 1450, exactly 1440 minutes above the same-day value 10. -/
theorem timeNormalizer_monotone :
    (∀ toks : List (Option String), (∀ raw ∈ toks, validTok raw = true) →
      List.Chain' (· ≤ ·) (TimeNormalizer.init.run toks)) ∧
    TimeNormalizer.init.run [some "2350", some "0010"] = [1430, 10 + 1440] := by
  constructor
  · intro toks hval
    have hInv : TimeNormalizer.init.Inv := by
      intro l hl
      simp [TimeNormalizer.init] at hl
    exact (TimeNormalizer.run_chain toks TimeNormalizer.init hInv hval).1
  · have h1 : TimeNormalizer.init.run [some "2350", some "0010"] =
        1430 :: (⟨0, some 1430⟩ : TimeNormalizer).run [some "0010"] := by
      simp only [TimeNormalizer.run, parse_2350]
    have h2 : (⟨0, some 1430⟩ : TimeNormalizer).run [some "0010"] = [1450] := by
      simp only [TimeNormalizer.run, parse_0010_after_2350]
    rw [h1, h2]
    norm_num

/-- Witness for C2 at the concrete token pair 2350, 0010. -/
theorem timeNormalizer_monotone_witness :
    List.Chain' (· ≤ ·) (TimeNormalizer.init.run [some "2350", some "0010"]) :=
  timeNormalizer_monotone.1 [some "2350", some "0010"] (by decide)

/-- Counterexample to C2 as stated: over arbitrary raw tokens the output
sequence of one instance can decrease.  The token 9999 parses to the
same-day value 6039, after which 0010 returns 1450, so the non-None output
sequence 6039, 1450 is not monotonically non-decreasing. -/
theorem timeNormalizer_raw_tokens_can_decrease :
    TimeNormalizer.init.run [some "9999", some "0010"] = [6039, 1450] ∧
    ¬ List.Chain' (· ≤ ·) (TimeNormalizer.init.run [some "9999", some "0010"]) := by
  have h1 : TimeNormalizer.init.run [some "9999", some "0010"] =
      6039 :: (⟨0, some 6039⟩ : TimeNormalizer).run [some "0010"] := by
    simp only [TimeNormalizer.run, parse_9999]
  have h2 : (⟨0, some 6039⟩ : TimeNormalizer).run [some "0010"] = [1450] := by
    simp only [TimeNormalizer.run, parse_0010_after_9999]
  have hrun : TimeNormalizer.init.run [some "9999", some "0010"] = [6039, 1450] := by
    rw [h1, h2]
  refine ⟨hrun, ?_⟩
  rw [hrun]
  intro hch
  rw [List.chain'_cons] at hch
  have : ((6039 : ℚ)) ≤ 1450 := hch.1
  norm_num at this

/-- The foldl-min of a list over a seed is the seed or one of the
elements. -/
theorem foldlMin_mem (l : List ℚ) : ∀ d : ℚ, l.foldl min d ∈ d :: l := by
  induction l with
  | nil => intro d; simp
  | cons x xs ih =>
    intro d
    rw [List.foldl_cons]
    simp only [List.mem_cons]
    rcases List.mem_cons.mp (ih (min d x)) with h1 | h1
    · rcases min_choice d x with hm | hm
      · exact Or.inl (h1.trans hm)
      · exact Or.inr (Or.inl (h1.trans hm))
    · exact Or.inr (Or.inr h1)

/-- The comprehension of compute_headways equals filtering the positive
values out of all consecutive gaps. -/
theorem filterMap_pos_gaps (pairs : List (ℚ × ℚ)) :
    pairs.filterMap (fun p => if p.1 < p.2 then some (p.2 - p.1) else none) =
    (pairs.map (fun p => p.2 - p.1)).filter (fun g => decide (0 < g)) := by
  induction pairs with
  | nil => rfl
  | cons p ps ih =>
    rcases p with ⟨a, b⟩
    by_cases h : a < b
    · simp only [List.filterMap_cons, List.map_cons, List.filter_cons, if_pos h]
      rw [if_pos (by simpa [decide_eq_true_eq] using sub_pos.mpr h), ih]
    · simp only [List.filterMap_cons, List.map_cons, List.filter_cons, if_neg h]
      rw [if_neg (by simpa [decide_eq_true_eq, sub_pos] using h), ih]

/-- On two or more departures the source headway agrees with the corrected
positive-gap minimum formula. -/
theorem headwayForTimes_eq_spec (times : List ℚ) (h2 : 2 ≤ times.length) :
    headwayForTimes times = specHeadway times := by
  have hlen : ¬ times.length < 2 := not_lt.mpr h2
  simp only [headwayForTimes, specHeadway, if_neg hlen]
  rw [filterMap_pos_gaps, List.filter_append]
  set w := (times.insertionSort (· ≤ ·)).headD 0 + 24 * 60 -
    (times.insertionSort (· ≤ ·)).getLastD 0 with hwdef
  by_cases hw2 : 0 < w
  · rw [if_pos hw2]
    have hfw : List.filter (fun g => decide (0 < g)) [w] = [w] := by
      simp only [List.filter_cons, List.filter_nil]
      rw [if_pos (by simpa using hw2)]
    rw [hfw]
  · rw [if_neg hw2]
    have hfw : List.filter (fun g => decide (0 < g)) [w] = [] := by
      simp only [List.filter_cons, List.filter_nil]
      rw [if_neg (by simpa using hw2)]
    rw [hfw, List.append_nil]

/-- getLastD of a replicate list whose default is the replicated value. -/
theorem getLastD_replicate (t : ℚ) : ∀ m : Nat, (List.replicate m t).getLastD t = t := by
  intro m
  induction m with
  | zero => rfl
  | succ k ih =>
    rw [List.replicate_succ, List.getLastD_cons]
    exact ih

/-- Every headway produced by the gap computation is strictly positive. -/
theorem headwayForTimes_pos (times : List ℚ) : 0 < headwayForTimes times := by
  by_cases hlen : times.length < 2
  · rw [headwayForTimes, if_pos hlen]; norm_num
  · simp only [headwayForTimes, if_neg hlen]
    set st := times.insertionSort (· ≤ ·) with hst
    set diffs0 := (st.zip st.tail).filterMap
      (fun p => if p.1 < p.2 then some (p.2 - p.1) else none) with hdiffs
    have hall : ∀ x ∈ diffs0, 0 < x := by
      intro x hx
      rw [hdiffs] at hx
      obtain ⟨p, _, hpe⟩ := List.mem_filterMap.mp hx
      by_cases hc : p.1 < p.2
      · rw [if_pos hc] at hpe
        rw [← Option.some.inj hpe]
        exact sub_pos.mpr hc
      · rw [if_neg hc] at hpe
        cases hpe
    set w := st.headD 0 + 24 * 60 - st.getLastD 0 with hwdef
    by_cases hw : 0 < w
    · rw [if_pos hw]
      cases hd : diffs0 ++ [w] with
      | nil => norm_num
      | cons d rest =>
        have hmem := foldlMin_mem rest d
        have hposall : ∀ x ∈ d :: rest, 0 < x := by
          rw [← hd]
          intro x hx
          rcases List.mem_append.mp hx with hx1 | hx1
          · exact hall x hx1
          · rw [List.mem_singleton.mp hx1]
            exact hw
        exact hposall _ hmem
    · rw [if_neg hw]
      cases hd : diffs0 with
      | nil => norm_num
      | cons d rest =>
        have hmem := foldlMin_mem rest d
        have hposall : ∀ x ∈ d :: rest, 0 < x := by
          rw [← hd]
          exact hall
        exact hposall _ hmem

/-- A constant list is sorted. -/
theorem sorted_replicate_le (t : ℚ) : ∀ m : Nat, (List.replicate m t).Sorted (· ≤ ·) := by
  intro m
  induction m with
  | zero => simp
  | succ k ih =>
    rw [List.replicate_succ, List.sorted_cons]
    exact ⟨fun b hb => le_of_eq (List.eq_of_mem_replicate hb).symm, ih⟩

/-- Two or more identical departures yield the full-day wrap headway. -/
theorem headwayForTimes_replicate (t : ℚ) (n : Nat) (hn : 2 ≤ n) :
    headwayForTimes (List.replicate n t) = 1440 := by
  obtain ⟨m, rfl⟩ : ∃ m, n = m + 2 := ⟨n - 2, by omega⟩
  simp only [headwayForTimes, if_neg (by rw [List.length_replicate]; omega : ¬ (List.replicate (m + 2) t).length < 2)]
  rw [List.Sorted.insertionSort_eq (sorted_replicate_le t (m + 2))]
  have htail : (List.replicate (m + 2) t).tail = List.replicate (m + 1) t := by
    rw [List.replicate_succ, List.tail_cons]
  have hfm : ((List.replicate (m + 2) t).zip (List.replicate (m + 2) t).tail).filterMap
      (fun p => if p.1 < p.2 then some (p.2 - p.1) else none) = [] := by
    rw [List.filterMap_eq_nil_iff]
    intro p hp
    rcases p with ⟨a, b⟩
    obtain ⟨ha, hb⟩ := List.of_mem_zip hp
    rw [htail] at hb
    rw [List.eq_of_mem_replicate ha, List.eq_of_mem_replicate hb]
    exact if_neg (lt_irrefl t)
  rw [hfm]
  have hhead : (List.replicate (m + 2) t).headD 0 = t := by
    rw [List.replicate_succ]
    rfl
  have hlast : (List.replicate (m + 2) t).getLastD 0 = t := by
    rw [List.replicate_succ, List.getLastD_cons, getLastD_replicate]
  rw [hhead, hlast]
  have hval : t + 24 * 60 - t = (1440 : ℚ) := by ring
  have hw : (0 : ℚ) < t + 24 * 60 - t := by rw [hval]; norm_num
  rw [if_pos hw]
  show List.foldl min (t + 24 * 60 - t) [] = 1440
  rw [List.foldl_nil, hval]

/-- C10: compute_headways always returns a strictly positive headway; with
two or more identical departure times the headway is the full-day wrap of
1440 minutes, never 0; hence the derived wait of min(headway over 2, cap)
is positive too. -/
theorem compute_headways_always_positive :
    (∀ times : List ℚ, 0 < headwayForTimes times) ∧
    (∀ (t : ℚ) (n : Nat), 2 ≤ n → headwayForTimes (List.replicate n t) = 1440) ∧
    (∀ times : List ℚ, 0 < waitMinutes (headwayForTimes times)) := by
  refine ⟨headwayForTimes_pos, headwayForTimes_replicate, ?_⟩
  intro times
  have h := headwayForTimes_pos times
  unfold waitMinutes MAX_WAIT_MINUTES
  exact lt_min (by linarith) (by norm_num)

/-- Witness for C10 at concrete inputs. -/
theorem compute_headways_always_positive_witness :
    0 < headwayForTimes [100] ∧
    headwayForTimes (List.replicate 3 7) = 1440 ∧
    0 < waitMinutes (headwayForTimes [100]) :=
  ⟨compute_headways_always_positive.1 [100],
   compute_headways_always_positive.2.1 7 3 (by decide),
   compute_headways_always_positive.2.2 [100]⟩

/-- C7 (amended): below two departures compute_headways assigns the 30
minute fallback; with two or more departures the headway is the minimum of
the strictly positive consecutive gaps of the sorted departures together
with the wrap-around gap when positive (30 when no gap qualifies); for
departures 100, 130, 160 the headway is 30. -/
theorem compute_headways_min_gap :
    (∀ ks : List ((String × String) × List ℚ), ∀ p ∈ ks,
      (p.1, headwayForTimes p.2) ∈ compute_headways ks) ∧
    (∀ times : List ℚ, times.length < 2 → headwayForTimes times = 30) ∧
    (∀ times : List ℚ, 2 ≤ times.length → headwayForTimes times = specHeadway times) ∧
    headwayForTimes [100, 130, 160] = 30 := by
  refine ⟨?_, ?_, headwayForTimes_eq_spec, ?_⟩
  · intro ks p hp
    exact List.mem_map.mpr ⟨p, hp, rfl⟩
  · intro times h
    rw [headwayForTimes, if_pos h]
  · norm_num [headwayForTimes, List.insertionSort, List.orderedInsert,
      List.filterMap_cons]

/-- Witness for C7 at concrete inputs. -/
theorem compute_headways_min_gap_witness :
    ((("S", "l"), headwayForTimes [100, 130, 160]) ∈
      compute_headways [(("S", "l"), [100, 130, 160])]) ∧
    headwayForTimes [100] = 30 ∧
    headwayForTimes [100, 100] = specHeadway [100, 100] :=
  ⟨compute_headways_min_gap.1 [(("S", "l"), [100, 130, 160])] (("S", "l"), [100, 130, 160]) (by simp),
   compute_headways_min_gap.2.1 [100] (by decide),
   compute_headways_min_gap.2.2.1 [100, 100] (by decide)⟩

/-- Counterexample to C7 as stated: for the duplicate departure list
100, 100 the code drops the zero gap and returns the wrap headway 1440,
while the minimum over the consecutive gaps together with the wrap gap
as the claim words it is 0. -/
theorem compute_headways_duplicate_departures :
    compute_headways [(("STN", "ln"), [100, 100])] = [(("STN", "ln"), 1440)] ∧
    claimedHeadway [100, 100] = 0 ∧ ((1440 : ℚ)) ≠ 0 := by
  refine ⟨?_, ?_, by norm_num⟩
  · show [(("STN", "ln"), headwayForTimes [100, 100])] = [(("STN", "ln"), 1440)]
    norm_num [headwayForTimes, List.insertionSort, List.orderedInsert,
      List.filterMap_cons]
  · norm_num [claimedHeadway, listMin, List.insertionSort, List.orderedInsert]

/-- Counting invariant of the extraction loop: the timing-point total
counts the catalogued locations, the public-stop count those of them with a
public time, independently of the normalizer state and accumulator. -/
theorem extractGo_counts (metadata : List String) :
    ∀ (locs : List ScheduleLocation) (norm : TimeNormalizer)
      (total public : Nat) (acc : List StopEvent),
      (extractGo metadata norm total public acc locs).2.1 =
        total + (locs.filter (isCataloguedPoint metadata)).length ∧
      (extractGo metadata norm total public acc locs).2.2 =
        public + ((locs.filter (isCataloguedPoint metadata)).filter hasPublicTime).length := by
  intro locs
  induction locs with
  | nil =>
    intro norm total public acc
    simp [extractGo]
  | cons loc rest ih =>
    intro norm total public acc
    by_cases h1 : isCataloguedPoint metadata loc
    · rw [List.filter_cons, if_pos h1]
      by_cases h2 : hasPublicTime loc
      · rw [List.filter_cons, if_pos h2]
        simp only [extractGo, if_neg (not_not_intro h1), if_neg (not_not_intro h2)]
        by_cases h3 : (norm.parse (pyOr loc.arrival loc.public_arrival)).2 = none ∧
            ((norm.parse (pyOr loc.arrival loc.public_arrival)).1.parse
              (pyOr loc.departure loc.public_departure)).2 = none
        · rw [if_pos h3]
          have hr := ih ((norm.parse (pyOr loc.arrival loc.public_arrival)).1.parse
            (pyOr loc.departure loc.public_departure)).1 (total + 1) (public + 1) acc
          rw [hr.1, hr.2]
          constructor <;> simp <;> omega
        · rw [if_neg h3]
          have hr := ih ((norm.parse (pyOr loc.arrival loc.public_arrival)).1.parse
            (pyOr loc.departure loc.public_departure)).1 (total + 1) (public + 1)
            (⟨station_id_from_tiploc (locTiploc loc), locTiploc loc,
              (norm.parse (pyOr loc.arrival loc.public_arrival)).2,
              ((norm.parse (pyOr loc.arrival loc.public_arrival)).1.parse
                (pyOr loc.departure loc.public_departure)).2⟩ :: acc)
          rw [hr.1, hr.2]
          constructor <;> simp <;> omega
      · rw [List.filter_cons, if_neg h2]
        simp only [extractGo, if_neg (not_not_intro h1), if_pos h2]
        have hr := ih norm (total + 1) public acc
        rw [hr.1, hr.2]
        constructor <;> simp <;> omega
    · rw [List.filter_cons, if_neg h1]
      simp only [extractGo, if_pos h1]
      exact ih norm total public acc

/-- C8 (amended): the stop ratio handed to the classifier counts only the
timing points whose normalized TIPLOC is non-blank and present in the
station catalogue: it is the number of such points carrying a public time
divided by the number of such points, and 0.0 when there are none (in
particular for an empty sequence). -/
theorem extract_stop_events_ratio (locations : List ScheduleLocation)
    (metadata : List String) :
    (extract_stop_events locations metadata).2 =
      (if (locations.filter (isCataloguedPoint metadata)).length = 0 then 0
       else (((locations.filter (isCataloguedPoint metadata)).filter hasPublicTime).length : ℚ) /
         ((locations.filter (isCataloguedPoint metadata)).length : ℚ)) := by
  by_cases hempty : locations = []
  · subst hempty
    simp [extract_stop_events]
  · have hc := extractGo_counts metadata locations TimeNormalizer.init 0 0 []
    unfold extract_stop_events
    rw [if_neg hempty]
    show (if (extractGo metadata TimeNormalizer.init 0 0 [] locations).2.1 ≠ 0 then
        ((extractGo metadata TimeNormalizer.init 0 0 [] locations).2.2 : ℚ) /
          ((extractGo metadata TimeNormalizer.init 0 0 [] locations).2.1 : ℚ)
      else 0) =
      (if (locations.filter (isCataloguedPoint metadata)).length = 0 then 0
       else (((locations.filter (isCataloguedPoint metadata)).filter hasPublicTime).length : ℚ) /
         ((locations.filter (isCataloguedPoint metadata)).length : ℚ))
    rw [hc.1, hc.2, Nat.zero_add, Nat.zero_add]
    by_cases hn : (locations.filter (isCataloguedPoint metadata)).length = 0
    · rw [if_pos hn, if_neg (not_not_intro hn)]
    · rw [if_neg hn, if_pos hn]

/-- Counterexample to C8 as stated: with catalogue AAAA only, the sequence
holding an unknown-TIPLOC location with a public time and a catalogued
location without one gets code ratio 0, while public stops over all timing
points of the sequence is one half. -/
theorem extract_ratio_not_whole_sequence :
    (extract_stop_events [locUnknownPublic, locKnownNoPublic] ["AAAA"]).2 = 0 ∧
    ratioSpecWords [locUnknownPublic, locKnownNoPublic] = 1 / 2 ∧
    ((0 : ℚ)) ≠ 1 / 2 := by
  refine ⟨?_, ?_, by norm_num⟩
  · have hgo : (extractGo ["AAAA"] TimeNormalizer.init 0 0 []
        [locUnknownPublic, locKnownNoPublic]) = ([], 1, 0) := by decide
    unfold extract_stop_events
    rw [if_neg (by decide), hgo]
    norm_num
  · unfold ratioSpecWords
    rw [if_neg (by decide)]
    rw [show ([locUnknownPublic, locKnownNoPublic].filter hasPublicTime).length = 1 from by decide]
    norm_num

/-- Characterization of mergeOneEdge when the key is absent: the record is
appended and indexed. -/
theorem mergeOneEdge_insert (st : LinesState) (e : LineEdge)
    (hidx : st.index.lookup (edgeKey e) = none) :
    mergeOneEdge st e =
      (⟨st.records ++ [e], (edgeKey e, st.records.length) :: st.index⟩, 0, 1) := by
  simp only [mergeOneEdge, hidx]

/-- Characterization of mergeOneEdge when the key is present with a larger
stored time: the record is updated in place. -/
theorem mergeOneEdge_update (st : LinesState) (e : LineEdge) (idx : Nat)
    (r : LineEdge) (hidx : st.index.lookup (edgeKey e) = some idx)
    (hr : st.records[idx]? = some r) (hlt : e.time < r.time) :
    mergeOneEdge st e =
      (⟨st.records.set idx { r with time := e.time }, st.index⟩, 1, 0) := by
  simp only [mergeOneEdge, hidx, hr, if_pos hlt]

/-- Characterization of mergeOneEdge when the key is present with a stored
time at most the new one: nothing changes. -/
theorem mergeOneEdge_keep (st : LinesState) (e : LineEdge) (idx : Nat)
    (r : LineEdge) (hidx : st.index.lookup (edgeKey e) = some idx)
    (hr : st.records[idx]? = some r) (hge : ¬ e.time < r.time) :
    mergeOneEdge st e = (st, 0, 0) := by
  simp only [mergeOneEdge, hidx, hr, if_neg hge]

/-- An unindexed key stores nothing. -/
theorem storedTime_lookup_none (st : LinesState) (k : EdgeKey)
    (h : st.index.lookup k = none) : storedTime st k = none := by
  simp [storedTime, h]

/-- An indexed key stores the time of the record at its position. -/
theorem storedTime_lookup_some (st : LinesState) (k : EdgeKey) (i : Nat)
    (r : LineEdge) (hl : st.index.lookup k = some i) (hr : st.records[i]? = some r) :
    storedTime st k = some r.time := by
  simp [storedTime, hl, hr]

/-- Merging one edge stores, at its key, the minimum of the previously
stored time and the new time (the new time alone when the key was
absent). -/
theorem storedTime_mergeOneEdge_key (st : LinesState) (hwf : LinesWF st)
    (e : LineEdge) :
    storedTime (mergeOneEdge st e).1 (edgeKey e) =
      some ((storedTime st (edgeKey e)).elim e.time (fun t => min t e.time)) := by
  cases hidx : st.index.lookup (edgeKey e) with
  | none =>
    rw [mergeOneEdge_insert st e hidx, storedTime_lookup_none st _ hidx]
    unfold storedTime
    have hbeq : (edgeKey e == edgeKey e) = true := by simp
    simp only [List.lookup_cons, hbeq, Option.some_bind, List.getElem?_concat_length,
      Option.map_some', Option.elim]
  | some idx =>
    obtain ⟨r, hr, hkey⟩ := hwf _ _ hidx
    have hidxlt : idx < st.records.length := (List.getElem?_eq_some.mp hr).1
    rw [storedTime_lookup_some st _ idx r hidx hr]
    by_cases hlt : e.time < r.time
    · rw [mergeOneEdge_update st e idx r hidx hr hlt]
      unfold storedTime
      simp only [hidx, Option.some_bind]
      rw [List.getElem?_set_eq_of_lt _ hidxlt]
      simp only [Option.map_some', Option.elim]
      rw [min_eq_right (le_of_lt hlt)]
    · rw [mergeOneEdge_keep st e idx r hidx hr hlt]
      rw [storedTime_lookup_some st _ idx r hidx hr]
      simp only [Option.elim]
      rw [min_eq_left (not_lt.mp hlt)]

/-- Merging one edge leaves the stored time at every other key
unchanged. -/
theorem storedTime_mergeOneEdge_ne (st : LinesState) (hwf : LinesWF st)
    (e : LineEdge) (k : EdgeKey) (hk : k ≠ edgeKey e) :
    storedTime (mergeOneEdge st e).1 k = storedTime st k := by
  cases hidx : st.index.lookup (edgeKey e) with
  | none =>
    rw [mergeOneEdge_insert st e hidx]
    unfold storedTime
    have hbeq : (k == edgeKey e) = false := beq_eq_false_iff_ne.mpr hk
    simp only [List.lookup_cons, hbeq]
    cases hl : st.index.lookup k with
    | none => simp
    | some j =>
      obtain ⟨rj, hrj, _⟩ := hwf _ _ hl
      have hjlt : j < st.records.length := (List.getElem?_eq_some.mp hrj).1
      simp only [Option.some_bind]
      rw [List.getElem?_append, if_pos hjlt]
  | some idx =>
    obtain ⟨r, hr, hkey⟩ := hwf _ _ hidx
    by_cases hlt : e.time < r.time
    · rw [mergeOneEdge_update st e idx r hidx hr hlt]
      unfold storedTime
      cases hl : st.index.lookup k with
      | none => simp
      | some j =>
        have hne : idx ≠ j := by
          intro hji
          subst hji
          obtain ⟨rj, hrj, hkeyj⟩ := hwf _ _ hl
          rw [hr] at hrj
          exact hk (by rw [← hkeyj, ← Option.some.inj hrj]; exact hkey)
        simp only [Option.some_bind]
        rw [List.getElem?_set_ne hne]
    · rw [mergeOneEdge_keep st e idx r hidx hr hlt]

/-- Merging one edge preserves the index well-formedness of the store. -/
theorem linesWF_mergeOneEdge (st : LinesState) (hwf : LinesWF st)
    (e : LineEdge) : LinesWF (mergeOneEdge st e).1 := by
  cases hidx : st.index.lookup (edgeKey e) with
  | none =>
    rw [mergeOneEdge_insert st e hidx]
    intro k i hki
    by_cases hk : k = edgeKey e
    · subst hk
      have hbeq : (edgeKey e == edgeKey e) = true := by simp
      simp only [List.lookup_cons, hbeq, Option.some.injEq] at hki
      subst hki
      exact ⟨e, List.getElem?_concat_length _ _, rfl⟩
    · have hbeq : (k == edgeKey e) = false := beq_eq_false_iff_ne.mpr hk
      simp only [List.lookup_cons, hbeq] at hki
      obtain ⟨r, hr, hkey⟩ := hwf _ _ hki
      have hjlt : i < st.records.length := (List.getElem?_eq_some.mp hr).1
      refine ⟨r, ?_, hkey⟩
      rw [List.getElem?_append, if_pos hjlt]
      exact hr
  | some idx =>
    obtain ⟨r, hr, hkey⟩ := hwf _ _ hidx
    have hidxlt : idx < st.records.length := (List.getElem?_eq_some.mp hr).1
    by_cases hlt : e.time < r.time
    · rw [mergeOneEdge_update st e idx r hidx hr hlt]
      intro k i hki
      by_cases hik : i = idx
      · subst hik
        obtain ⟨rk, hrk, hkeyk⟩ := hwf _ _ hki
        rw [hr] at hrk
        refine ⟨{ r with time := e.time }, List.getElem?_set_eq_of_lt _ hidxlt, ?_⟩
        show edgeKey r = k
        rw [← Option.some.inj hrk] at hkeyk
        exact hkeyk
      · obtain ⟨rk, hrk, hkeyk⟩ := hwf _ _ hki
        refine ⟨rk, ?_, hkeyk⟩
        rw [List.getElem?_set_ne (fun hh => hik hh.symm)]
        exact hrk
    · rw [mergeOneEdge_keep st e idx r hidx hr hlt]
      exact hwf

/-- Merging the same edge a second time changes nothing and reports no
update and no insert. -/
theorem mergeOneEdge_idem (st : LinesState) (hwf : LinesWF st) (e : LineEdge) :
    mergeOneEdge (mergeOneEdge st e).1 e = ((mergeOneEdge st e).1, 0, 0) := by
  have hwf2 := linesWF_mergeOneEdge st hwf e
  have hkey := storedTime_mergeOneEdge_key st hwf e
  cases hidx : (mergeOneEdge st e).1.index.lookup (edgeKey e) with
  | none =>
    rw [storedTime_lookup_none _ _ hidx] at hkey
    cases hkey
  | some idx =>
    obtain ⟨r, hr, hkeyr⟩ := hwf2 _ _ hidx
    have ht : ¬ e.time < r.time := by
      rw [storedTime_lookup_some _ _ idx r hidx hr] at hkey
      have heq := Option.some.inj hkey
      cases hold : storedTime st (edgeKey e) with
      | none =>
        rw [hold] at heq
        simp only [Option.elim] at heq
        rw [heq]
        exact lt_irrefl _
      | some t0 =>
        rw [hold] at heq
        simp only [Option.elim] at heq
        rw [heq]
        exact not_lt.mpr (min_le_right t0 e.time)
    exact mergeOneEdge_keep _ e idx r hidx hr ht

/-- Merging an edge never increases a stored time. -/
theorem storedTime_mergeOneEdge_mono (st : LinesState) (hwf : LinesWF st)
    (e : LineEdge) (k : EdgeKey) (t : Int) (h : storedTime st k = some t) :
    ∃ t', storedTime (mergeOneEdge st e).1 k = some t' ∧ t' ≤ t := by
  by_cases hk : k = edgeKey e
  · subst hk
    refine ⟨(storedTime st (edgeKey e)).elim e.time (fun t0 => min t0 e.time),
      storedTime_mergeOneEdge_key st hwf e, ?_⟩
    rw [h]
    simp only [Option.elim]
    exact min_le_left _ _
  · exact ⟨t, by rw [storedTime_mergeOneEdge_ne st hwf e k hk]; exact h, le_refl t⟩

/-- Combining optional minima is associative. -/
theorem ominOpt_assoc (a b c : Option Int) :
    ominOpt (ominOpt a b) c = ominOpt a (ominOpt b c) := by
  cases a <;> cases b <;> cases c <;> simp [ominOpt, min_assoc]

/-- The store reached by merge_line_edges is the plain fold of the
single-edge merges. -/
theorem merge_line_edges_fst (es : List LineEdge) : ∀ (st : LinesState) (u i : Nat),
    (es.foldl
      (fun acc e =>
        ((mergeOneEdge acc.1 e).1, acc.2.1 + (mergeOneEdge acc.1 e).2.1,
          acc.2.2 + (mergeOneEdge acc.1 e).2.2)) (st, u, i)).1 =
      es.foldl (fun s e => (mergeOneEdge s e).1) st := by
  induction es with
  | nil => intro st u i; rfl
  | cons e es ih =>
    intro st u i
    simp only [List.foldl_cons]
    exact ih (mergeOneEdge st e).1 _ _

/-- Folding single-edge merges preserves well-formedness. -/
theorem linesWF_fold (es : List LineEdge) : ∀ st : LinesState, LinesWF st →
    LinesWF (es.foldl (fun s e => (mergeOneEdge s e).1) st) := by
  induction es with
  | nil => intro st h; exact h
  | cons e es ih =>
    intro st h
    rw [List.foldl_cons]
    exact ih _ (linesWF_mergeOneEdge st h e)

/-- After folding a batch of new edges, every key stores the minimum of its
previous time and the minimum time among the new edges with that key. -/
theorem storedTime_fold (es : List LineEdge) : ∀ st : LinesState, LinesWF st →
    ∀ k : EdgeKey,
      storedTime (es.foldl (fun s e => (mergeOneEdge s e).1) st) k =
        ominOpt (storedTime st k) (minNewTime k es) := by
  induction es with
  | nil =>
    intro st _ k
    simp only [List.foldl_nil, minNewTime]
    cases storedTime st k <;> rfl
  | cons e es ih =>
    intro st hwf k
    rw [List.foldl_cons, ih (mergeOneEdge st e).1 (linesWF_mergeOneEdge st hwf e) k]
    by_cases hk : k = edgeKey e
    · subst hk
      rw [storedTime_mergeOneEdge_key st hwf e, minNewTime, if_pos rfl, ← ominOpt_assoc]
      cases hold : storedTime st (edgeKey e) with
      | none => rfl
      | some t0 => simp only [Option.elim]; rfl
    · rw [storedTime_mergeOneEdge_ne st hwf e k hk, minNewTime,
        if_neg (fun hh => hk hh.symm)]

/-- C1: on a well-formed store, merge_line_edges keeps the minimum weight
per key and is idempotent: merging an edge stores min(old, new) at its key
(the new weight alone when the key was absent, so a strictly smaller weight
replaces and a larger one is ignored), leaves every other key unchanged,
merging the same edge twice changes nothing, stored weights are
monotonically non-increasing, and after a whole batch every key stores the
minimum ever observed. -/
theorem merge_line_edges_keeps_minimum (st : LinesState) (hwf : LinesWF st) :
    (∀ e : LineEdge, storedTime (mergeOneEdge st e).1 (edgeKey e) =
      some ((storedTime st (edgeKey e)).elim e.time (fun t => min t e.time))) ∧
    (∀ (e : LineEdge) (k : EdgeKey), k ≠ edgeKey e →
      storedTime (mergeOneEdge st e).1 k = storedTime st k) ∧
    (∀ e : LineEdge,
      mergeOneEdge (mergeOneEdge st e).1 e = ((mergeOneEdge st e).1, 0, 0)) ∧
    (∀ (e : LineEdge) (k : EdgeKey) (t : Int), storedTime st k = some t →
      ∃ t', storedTime (mergeOneEdge st e).1 k = some t' ∧ t' ≤ t) ∧
    (∀ (es : List LineEdge) (k : EdgeKey),
      storedTime (merge_line_edges st es).1 k =
        ominOpt (storedTime st k) (minNewTime k es)) :=
  ⟨fun e => storedTime_mergeOneEdge_key st hwf e,
   fun e k hk => storedTime_mergeOneEdge_ne st hwf e k hk,
   fun e => mergeOneEdge_idem st hwf e,
   fun e k t h => storedTime_mergeOneEdge_mono st hwf e k t h,
   fun es k => by
     have hfold := merge_line_edges_fst es st 0 0
     unfold merge_line_edges
     rw [hfold]
     exact storedTime_fold es st hwf k⟩

/-- Witness for C1 on a store holding the key at weight 10: merging 7
stores 7, merging 12 leaves 10, remerging is inert, and a batch stores the
minimum observed. -/
theorem merge_line_edges_keeps_minimum_witness :
    storedTime (mergeOneEdge st10 edge7).1 (edgeKey edge7) = some 7 ∧
    storedTime (mergeOneEdge st10 edge12).1 (edgeKey edge12) = some 10 ∧
    mergeOneEdge (mergeOneEdge st10 edge7).1 edge7 = ((mergeOneEdge st10 edge7).1, 0, 0) ∧
    storedTime (merge_line_edges st10 [edge7, edge12]).1 (edgeKey edge10) =
      ominOpt (storedTime st10 (edgeKey edge10)) (minNewTime (edgeKey edge10) [edge7, edge12]) := by
  have hwf : LinesWF st10 := by
    intro k i hki
    by_cases hk : k = edgeKey edge10
    · subst hk
      have hbeq : (edgeKey edge10 == edgeKey edge10) = true := by simp
      simp only [st10, List.lookup_cons, hbeq, Option.some.injEq] at hki
      subst hki
      exact ⟨edge10, rfl, rfl⟩
    · have hbeq : (k == edgeKey edge10) = false := beq_eq_false_iff_ne.mpr hk
      simp only [st10, List.lookup_cons, hbeq, List.lookup_nil] at hki
      cases hki
  have h := merge_line_edges_keeps_minimum st10 hwf
  refine ⟨?_, ?_, h.2.2.1 edge7, h.2.2.2.2 [edge7, edge12] (edgeKey edge10)⟩
  · exact (h.1 edge7).trans (by decide)
  · exact (h.1 edge12).trans (by decide)

/-- A truthy right operand keeps a Python or-chain truthy. -/
theorem truthy_pyOr (a b : Option String) (h : truthy b = true) :
    truthy (pyOr a b) = true := by
  unfold pyOr
  by_cases ha : truthy a = true
  · rw [if_pos ha]; exact ha
  · rw [if_neg ha]; exact h

/-- A truthy left operand keeps a Python or-chain truthy. -/
theorem truthy_pyOr_of_left (a b : Option String) (h : truthy a = true) :
    truthy (pyOr a b) = true := by
  unfold pyOr
  rw [if_pos h]
  exact h

/-- C3 (amended): the station merge never overwrites the populated
or-guarded fields station_name, code, atco_code, naptan_code and locality
with unset values, but latitude and longitude are always replaced by the
new metadata values, even unset ones. -/
theorem merge_station_guarded_fields (rec : StationRecord) (sid : String)
    (meta : StationMetadata) :
    (truthy rec.station_name = true →
      truthy (mergeStationOne (some rec) sid meta).station_name = true) ∧
    (truthy rec.code = true →
      truthy (mergeStationOne (some rec) sid meta).code = true) ∧
    (truthy rec.atco_code = true →
      truthy (mergeStationOne (some rec) sid meta).atco_code = true) ∧
    (truthy rec.naptan_code = true →
      truthy (mergeStationOne (some rec) sid meta).naptan_code = true) ∧
    (truthy rec.locality = true →
      truthy (mergeStationOne (some rec) sid meta).locality = true) ∧
    (mergeStationOne (some rec) sid meta).latitude = meta.latitude ∧
    (mergeStationOne (some rec) sid meta).longitude = meta.longitude := by
  refine ⟨?_, ?_, ?_, ?_, ?_, rfl, rfl⟩
  · intro h
    exact truthy_pyOr _ _ (truthy_pyOr_of_left _ _ h)
  · intro h
    exact truthy_pyOr _ _ (truthy_pyOr_of_left _ _ h)
  · intro h
    show truthy (if truthy meta.atco_code = true then meta.atco_code else rec.atco_code) = true
    by_cases hm : truthy meta.atco_code = true
    · rw [if_pos hm]; exact hm
    · rw [if_neg hm]; exact h
  · intro h
    show truthy (if truthy meta.naptan_code = true then meta.naptan_code else rec.naptan_code) = true
    by_cases hm : truthy meta.naptan_code = true
    · rw [if_pos hm]; exact hm
    · rw [if_neg hm]; exact h
  · intro h
    show truthy (if truthy meta.locality_name = true then meta.locality_name else rec.locality) = true
    by_cases hm : truthy meta.locality_name = true
    · rw [if_pos hm]; exact hm
    · rw [if_neg hm]; exact h

/-- Witness for C3: merging metadata with no populated fields onto a fully
populated record keeps every guarded field populated while the coordinates
become the metadata's unset values. -/
theorem merge_station_guarded_fields_witness :
    truthy (mergeStationOne (some recFull) "910GAAA" metaNoCoords).station_name = true ∧
    truthy (mergeStationOne (some recFull) "910GAAA" metaNoCoords).code = true ∧
    truthy (mergeStationOne (some recFull) "910GAAA" metaNoCoords).atco_code = true ∧
    truthy (mergeStationOne (some recFull) "910GAAA" metaNoCoords).naptan_code = true ∧
    truthy (mergeStationOne (some recFull) "910GAAA" metaNoCoords).locality = true ∧
    (mergeStationOne (some recFull) "910GAAA" metaNoCoords).latitude = metaNoCoords.latitude ∧
    (mergeStationOne (some recFull) "910GAAA" metaNoCoords).longitude = metaNoCoords.longitude := by
  have h := merge_station_guarded_fields recFull "910GAAA" metaNoCoords
  exact ⟨h.1 (by decide), h.2.1 (by decide), h.2.2.1 (by decide),
    h.2.2.2.1 (by decide), h.2.2.2.2.1 (by decide), h.2.2.2.2.2.1, h.2.2.2.2.2.2⟩

/-- Counterexample to C3 as stated: merge_station_metadata overwrites the
populated latitude of an existing record with the unset latitude of the new
metadata (and likewise the longitude). -/
theorem merge_station_overwrites_coordinates :
    recWithCoords.latitude = some 51 ∧ recWithCoords.longitude = some 0 ∧
    ((merge_station_metadata [("910GAAA", recWithCoords)]
        [("910GAAA", metaNoCoords)]).lookup "910GAAA").map StationRecord.latitude =
      some none ∧
    ((merge_station_metadata [("910GAAA", recWithCoords)]
        [("910GAAA", metaNoCoords)]).lookup "910GAAA").map StationRecord.longitude =
      some none :=
  ⟨rfl, rfl, rfl, rfl⟩

/-- C5: every record emitted by the shortest-path loop joins two distinct
GROUND nodes of the graph: the origin and destination station ids come from
GROUND source and destination nodes (so never a HUB or line-token node),
from_station never equals to_station, and the emitted time is a finite
dijkstra distance, so unreachable pairs are never emitted. -/
theorem graph_times_ground_pairs (edges : List LineEdge) (r : PathRecord)
    (hr : r ∈ graph_times_main edges) :
    r.from_station ≠ r.to_station ∧
    ∃ s e : Node, s ∈ collectNodes (build_graph edges) ∧
      e ∈ collectNodes (build_graph edges) ∧
      is_ground_node s = true ∧ is_ground_node e = true ∧ s ≠ e ∧
      r.from_station = s.1 ∧ r.to_station = e.1 ∧
      dijkstra (build_graph edges) s e = some r.time := by
  unfold graph_times_main at hr
  rw [List.mem_flatMap] at hr
  obtain ⟨start, hstart, hr2⟩ := hr
  by_cases hg : is_ground_node start = true
  · rw [if_pos hg] at hr2
    rw [List.mem_filterMap] at hr2
    obtain ⟨dest, hdest, hre⟩ := hr2
    cases hd : dijkstra (build_graph edges) start dest with
    | none => rw [hd] at hre; cases hre
    | some d =>
      rw [hd] at hre
      replace hre : (if start ≠ dest ∧ is_ground_node dest = true then
          some (⟨start.1, dest.1, d⟩ : PathRecord) else none) = some r := hre
      by_cases hcond : start ≠ dest ∧ is_ground_node dest = true
      · rw [if_pos hcond] at hre
        obtain ⟨hne, hge⟩ := hcond
        have hrec := Option.some.inj hre
        subst hrec
        refine ⟨?_, start, dest, hstart, hdest, hg, hge, hne, rfl, rfl, hd⟩
        intro hfe
        apply hne
        have h2 : start.2 = dest.2 := by
          have ha := of_decide_eq_true hg
          have hb := of_decide_eq_true hge
          rw [ha, hb]
        exact Prod.ext hfe h2
      · rw [if_neg hcond] at hre
        cases hre
  · rw [if_neg hg] at hr2
    cases hr2

/-- Witness for C5 on the four-station test graph, at the single record it
emits. -/
theorem graph_times_ground_pairs_witness :
    (⟨"A", "B", 19⟩ : PathRecord).from_station ≠ (⟨"A", "B", 19⟩ : PathRecord).to_station ∧
    ∃ s e : Node, s ∈ collectNodes (build_graph spec_graph_edges) ∧
      e ∈ collectNodes (build_graph spec_graph_edges) ∧
      is_ground_node s = true ∧ is_ground_node e = true ∧ s ≠ e ∧
      (⟨"A", "B", 19⟩ : PathRecord).from_station = s.1 ∧
      (⟨"A", "B", 19⟩ : PathRecord).to_station = e.1 ∧
      dijkstra (build_graph spec_graph_edges) s e =
        some (⟨"A", "B", 19⟩ : PathRecord).time :=
  graph_times_ground_pairs spec_graph_edges ⟨"A", "B", 19⟩ (by decide)

/-- Renaming station names in place preserves the key list. -/
theorem map_fst_rename (renames : List (String × String))
    (l : List (String × StationRecord)) :
    (l.map (fun p =>
      match renames.lookup p.1 with
      | some nm => (p.1, { p.2 with station_name := some nm })
      | none => p)).map Prod.fst = l.map Prod.fst := by
  induction l with
  | nil => rfl
  | cons p ps ih =>
    simp only [List.map_cons]
    rw [ih]
    cases h : renames.lookup p.1 <;> simp [h]

/-- ensure_unique_station_names never changes the station-id key list. -/
theorem ensure_unique_fst (records : List (String × StationRecord)) :
    (ensure_unique_station_names records).map Prod.fst = records.map Prod.fst := by
  simp only [ensure_unique_station_names]
  rw [map_fst_rename, List.map_map]
  rfl

/-- Every key surviving the hub filter does not start with HUB. -/
theorem filter_ground_no_hub (records : List (String × StationRecord))
    (sid : String) (h : sid ∈ (filter_ground_nodes records).map Prod.fst) :
    pyStartsWith sid "HUB" = false := by
  obtain ⟨p, hp, hps⟩ := List.mem_map.mp h
  unfold filter_ground_nodes at hp
  rw [List.mem_filter] at hp
  rw [← hps]
  exact Bool.eq_false_iff.mpr (of_decide_eq_true hp.2)

/-- C9: after merging the persisted and national stations, dropping hub
nodes and disambiguating names, no surviving station identifier begins with
HUB, for every combination of previously persisted and newly produced
stations. -/
theorem station_catalogue_no_hub (existing : List (String × StationRecord))
    (national : List (String × StationMetadata)) (sid : String)
    (h : sid ∈ (ensure_unique_station_names (filter_ground_nodes
      (merge_station_metadata existing national))).map Prod.fst) :
    pyStartsWith sid "HUB" = false := by
  rw [ensure_unique_fst] at h
  exact filter_ground_no_hub _ sid h

/-- Witness for C9 on a catalogue holding one hub record, one persisted
station and one new national station. -/
theorem station_catalogue_no_hub_witness :
    pyStartsWith "910GAAA" "HUB" = false :=
  station_catalogue_no_hub exampleExisting exampleNational "910GAAA" (by decide)
